import Mathlib

/-!
Shallow embedding of the voxel-world sandbox core in `src/App.tsx`:
the block data model, the procedural terrain generator, the per-frame player
physics tick, and the pointer-interaction operations (highlight, timed
destruction, face-adjacent placement, inventory decrement).

Rendering-engine computations (three.js bounding boxes, raycasts, the
unseeded `Math.random`/trig noise samples) are external to the repository's
own logic; they enter the embedding as explicit function parameters
(`CollisionEnv`, the `pick` raycast resolvers, `NoiseEnv`).  Everything the
repository computes itself is transcribed directly from the source.
Numeric state is modelled with exact arithmetic (`ℚ`/`ℤ`, and `ℝ` for the
normalised movement vector).
-/

namespace VibeCart

/-- Block variants, from the `BlockType` union type in `App.tsx`. -/
inductive BlockType where
  | grass
  | dirt
  | stone
  | bedrock
  | wood
  | leaves
deriving DecidableEq

/-- Integer grid position of a block (one unit per block). -/
structure Pos3 where
  x : ℤ
  y : ℤ
  z : ℤ
deriving DecidableEq

/-- A placed block: grid position, block type, and the identity of its mesh.
The JS code distinguishes blocks by object identity (for example
`blocks.current.filter((block) => block !== clickedBlock)`), so the
embedding records each block's creation identity as a number. -/
structure Block where
  position : Pos3
  type : BlockType
  id : ℕ
deriving DecidableEq

/-- Constant `WORLD_SIZE = 10` from `App.tsx`. -/
def WORLD_SIZE : ℕ := 10

/-- Constant `BLOCK_SIZE = 1` from `App.tsx`. -/
def BLOCK_SIZE : ℤ := 1

/-- Constant `GRAVITY = 0.01` from `App.tsx`. -/
def GRAVITY : ℚ := 1/100

/-- Constant `JUMP_FORCE = 0.15` from `App.tsx`. -/
def JUMP_FORCE : ℚ := 15/100

/-- Constant `PLAYER_HEIGHT = 1.6` from `App.tsx`. -/
def PLAYER_HEIGHT : ℚ := 8/5

/-- Constant `bedrockLevel = -7` from `generateTerrain`. -/
def bedrockLevel : ℤ := -7

/-- One inventory slot `{ type, count }`.  Counts are modelled as integers so
that the non-negativity claim is a statement, not a typing artefact. -/
structure InvSlot where
  type : BlockType
  count : ℤ
deriving DecidableEq

/-- State owned by the `App` component that the interaction handlers read and
write: the block registry `blocks.current`, the highlight reference
`highlightedBlockRef.current` (by mesh identity), the destruction-progress
shared values, the inventory array, and the selected slot index. -/
structure AppState where
  blocks : List Block
  highlighted : Option ℕ
  isDestructionInProgress : Bool
  destructionProgress : ℚ
  inventory : List InvSlot
  selectedBlockIndex : ℕ
deriving DecidableEq

/-- Result of the placement raycast: identity of the hit mesh and the hit
face's outward normal already transformed to world space (the code's
`face.normal.clone().transformDirection(clickedMesh.matrixWorld)`). -/
structure PlacementHit where
  blockId : ℕ
  normal : Pos3
deriving DecidableEq

/-- Target cell for a placed block, from `addBlockAtPosition`:
`clickedBlock.position.clone().add(normal.multiplyScalar(BLOCK_SIZE))`. -/
def targetCell (p n : Pos3) : Pos3 :=
  ⟨p.x + n.x * BLOCK_SIZE, p.y + n.y * BLOCK_SIZE, p.z + n.z * BLOCK_SIZE⟩

/-- Embedding of `highlightBlockAtPosition(x, y)`.  The screen-point raycast
`raycaster.intersectObjects(...)[0]` is abstracted as `pick`, a function from
the current block list to the identity of the nearest hit mesh (if any); the
handler then finds that block and stores it in `highlightedBlockRef`. -/
def highlightBlockAtPosition (pick : List Block → Option ℕ) (s : AppState) :
    AppState :=
  match pick s.blocks with
  | none => s
  | some mid =>
    match s.blocks.find? (fun b => b.id = mid) with
    | none => s
    | some clicked => { s with highlighted := some clicked.id }

/-- Embedding of `destroyBlockAtPosition(x, y)`: reset the destruction
progress state first, then raycast afresh at the given screen point; if a
block is hit, remove it from the registry (filtering by object identity) and
clear the highlight reference when it pointed at the removed block. -/
def destroyBlockAtPosition (pick : List Block → Option ℕ) (s : AppState) :
    AppState :=
  let s1 := { s with isDestructionInProgress := false, destructionProgress := 0 }
  match pick s1.blocks with
  | none => s1
  | some mid =>
    match s1.blocks.find? (fun b => b.id = mid) with
    | none => s1
    | some clicked =>
      { s1 with
        blocks := s1.blocks.filter (fun b => b.id ≠ clicked.id),
        highlighted :=
          if s1.highlighted = some clicked.id then none else s1.highlighted }

/-- Embedding of `cancelDestructionProgress()`: if a destruction session is in
progress, cancel the progress animation and reset the progress state; the
world is not touched. -/
def cancelDestructionProgress (s : AppState) : AppState :=
  if s.isDestructionInProgress then
    { s with isDestructionInProgress := false, destructionProgress := 0 }
  else s

/-- Embedding of `startDestructionProgress(x, y)`: mark a session as in
progress with progress 0, and highlight the targeted block.  The 800ms
`withTiming` animation it schedules is modelled by `sessionRun` below. -/
def startDestructionProgress (pick : List Block → Option ℕ) (s : AppState) :
    AppState :=
  let s1 := { s with isDestructionInProgress := true, destructionProgress := 0 }
  highlightBlockAtPosition pick s1

/-- Embedding of `addBlockAtPosition(x, y)`.  Guards: a selected inventory
slot must exist (`inventory.get?` models the indexed access) and its count
must be positive.  Then raycast (`pick` abstracts the placement raycast,
yielding hit mesh identity and world-space face normal), compute the target
cell, reject if occupied, otherwise push the new block (`createBlock`'s
`blocks.current.push`, with `freshId` as the new mesh identity) and decrement
the selected slot. -/
def addBlockAtPosition (pick : List Block → Option PlacementHit) (freshId : ℕ)
    (s : AppState) : AppState :=
  match s.inventory.get? s.selectedBlockIndex with
  | none => s
  | some slot =>
    if slot.count ≤ 0 then s
    else
      match pick s.blocks with
      | none => s
      | some hit =>
        match s.blocks.find? (fun b => b.id = hit.blockId) with
        | none => s
        | some clicked =>
          let newPosition := targetCell clicked.position hit.normal
          if s.blocks.any (fun b => b.position = newPosition) then s
          else
            let newBlocks := s.blocks ++ [⟨newPosition, slot.type, freshId⟩]
            let newInventory :=
              if 0 < slot.count then
                s.inventory.set s.selectedBlockIndex ⟨slot.type, slot.count - 1⟩
              else s.inventory
            { s with blocks := newBlocks, inventory := newInventory }

/-- A sequence of placement attempts, each with its own raycast outcome and
fresh mesh identity, applied in order. -/
def placeMany (atts : List ((List Block → Option PlacementHit) × ℕ))
    (s : AppState) : AppState :=
  atts.foldl (fun st att => addBlockAtPosition att.1 att.2 st) s

/-- Composition of the `Gesture.LongPress` handlers for one destruction
session, transcribed from the gesture wiring in `App.tsx`:

* `onStart` fires `startDestructionProgress`, which schedules the 800ms
  progress animation whose completion callback runs
  `destroyBlockAtPosition` at the session-start screen point (`pickStart`);
* `release = some (t, st)` models `onEnd` firing at session-elapsed time `t`
  with gesture state `st`, followed by `onFinalize` running
  `cancelDestructionProgress`.  The `onEnd` handler destroys at the release
  screen point (`pickRelease`) when `st = 5` (the gesture END state) and
  cancels otherwise.  If `t < 800` the animation has not completed (and the
  cancellation path stops it); if `800 ≤ t` the animation completed first and
  already ran its destruction callback;
* `release = none` models a session whose input is never taken away before
  completion: only the animation callback runs. -/
def sessionRun (pickStart pickRelease : List Block → Option ℕ)
    (release : Option (ℚ × ℕ)) (s : AppState) : AppState :=
  let s1 := startDestructionProgress pickStart s
  match release with
  | none => destroyBlockAtPosition pickStart s1
  | some (t, st) =>
    if t < 800 then
      if st = 5 then
        cancelDestructionProgress (destroyBlockAtPosition pickRelease s1)
      else cancelDestructionProgress (cancelDestructionProgress s1)
    else
      let s2 := destroyBlockAtPosition pickStart s1
      if st = 5 then
        cancelDestructionProgress (destroyBlockAtPosition pickRelease s2)
      else cancelDestructionProgress (cancelDestructionProgress s2)

/-- Uniqueness invariant of the world: no two blocks in the registry occupy
the same grid position. -/
@[reducible]
def PosUnique (bs : List Block) : Prop :=
  bs.Pairwise (fun a b => a.position ≠ b.position)

/-! ## Physics -/

/-- Exact-rational 3D vector for player positions and displacements. -/
structure Vec3 where
  x : ℚ
  y : ℚ
  z : ℚ
deriving DecidableEq

/-- The `moveState.current` ref: directional intents, look deltas and the
jump intent. -/
structure MoveState where
  forward : Bool
  backward : Bool
  left : Bool
  right : Bool
  rotateX : ℚ
  rotateY : ℚ
  jump : Bool
deriving DecidableEq

/-- Player physics state: camera position, persistent vertical velocity
(`playerVelocity.current.y` — the horizontal components of that ref are never
used by the code), and the `playerOnGround` flag. -/
structure PlayerPhys where
  px : ℚ
  py : ℚ
  pz : ℚ
  vy : ℚ
  onGround : Bool
deriving DecidableEq

/-- Abstraction of the three.js geometry tests made inside the per-block
collision loop: `intersects b cand` models
`playerCollider.intersectsBox(blockBox)` for the player box built from the
candidate position `cand`, and `groundRayHit b cam` models the short downward
`Raycaster` from the camera position hitting `b`'s mesh. -/
structure CollisionEnv where
  intersects : Block → Vec3 → Bool
  groundRayHit : Block → Vec3 → Bool

/-- Accumulator of the per-block collision loop: the (possibly snapped)
candidate Y, the current vertical velocity, and the `collided` / `onGround`
flags. -/
structure CollAcc where
  newY : ℚ
  vy : ℚ
  collided : Bool
  onGround : Bool
deriving DecidableEq

/-- One iteration of the `for (const block of blocks.current)` loop in
`updatePlayerPosition`: on box intersection, either land (snap Y to block top
plus half player height, zero the vertical velocity, set on-ground) when the
velocity is non-positive and the camera sits above the block top, or flag a
horizontal collision; independently, a downward ray hit sets on-ground. -/
def collideStep (env : CollisionEnv) (camPos cand : Vec3) (acc : CollAcc)
    (b : Block) : CollAcc :=
  let acc1 :=
    if env.intersects b cand then
      if acc.vy ≤ 0 ∧ ((b.position.y + BLOCK_SIZE : ℤ) : ℚ) < camPos.y then
        { acc with
          newY := ((b.position.y + BLOCK_SIZE : ℤ) : ℚ) + PLAYER_HEIGHT / 2,
          vy := 0,
          onGround := true }
      else { acc with collided := true }
    else acc
  if env.groundRayHit b camPos then { acc1 with onGround := true } else acc1

/-- Embedding of the physics part of `updatePlayerPosition`: apply gravity
when airborne, apply the jump impulse when a jump intent is active on the
ground, form the candidate position from the horizontal movement vector
`moveDir` (whose ℝ-valued derivation from the camera quaternion is modelled
separately by `moveVector` below; its y component is forced to 0 by the
code), run the per-block collision loop, overwrite the on-ground flag with
the loop result, and commit either the full candidate position or (after a
horizontal collision) only its Y. -/
def updatePlayerPosition (env : CollisionEnv) (blocks : List Block)
    (ms : MoveState) (moveDir : Vec3) (p : PlayerPhys) : PlayerPhys :=
  let vyG := if ¬ p.onGround then p.vy - GRAVITY else p.vy
  let vyJ := if ms.jump ∧ p.onGround then JUMP_FORCE else vyG
  let cand : Vec3 := ⟨p.px + moveDir.x, p.py + moveDir.y + vyJ, p.pz + moveDir.z⟩
  let camPos : Vec3 := ⟨p.px, p.py, p.pz⟩
  let res := blocks.foldl (collideStep env camPos cand) ⟨cand.y, vyJ, false, false⟩
  if ¬ res.collided then
    { px := cand.x, py := res.newY, pz := cand.z, vy := res.vy,
      onGround := res.onGround }
  else
    { px := p.px, py := res.newY, pz := p.pz, vy := res.vy,
      onGround := res.onGround }

/-- Embedding of `handleJump(value)`: record the jump intent, and if the
player is on the ground while the intent is active, set the vertical velocity
to the jump impulse and clear the on-ground flag. -/
def handleJump (value : Bool) (ms : MoveState) (p : PlayerPhys) :
    MoveState × PlayerPhys :=
  ({ ms with jump := value },
   if p.onGround ∧ value then { p with vy := JUMP_FORCE, onGround := false }
   else p)

/-! ## Horizontal movement vector

The code derives horizontal unit vectors `forward` and `right` from the
camera quaternion (projecting to the horizontal plane and normalising), sums
them according to the four directional intents, and — when the sum is
nonzero — normalises the sum and scales it by `moveSpeed = 0.1`.  The
projected vectors live in the horizontal plane, so they are modelled as pairs
of reals; their unit length and orthogonality (which hold by construction in
the code for the clamped pitch range) appear as hypotheses of the movement
theorem. -/

/-- Squared Euclidean norm of a horizontal vector. -/
def normSq (v : ℝ × ℝ) : ℝ := v.1 * v.1 + v.2 * v.2

/-- Dot product of two horizontal vectors. -/
def dotH (u v : ℝ × ℝ) : ℝ := u.1 * v.1 + u.2 * v.2

/-- Euclidean length, the code's `Vector3.length()`. -/
noncomputable def vlen (v : ℝ × ℝ) : ℝ := Real.sqrt (normSq v)

/-- Componentwise vector addition (`Vector3.add`). -/
def vaddH (u v : ℝ × ℝ) : ℝ × ℝ := (u.1 + v.1, u.2 + v.2)

/-- Componentwise vector subtraction (`Vector3.sub`). -/
def vsubH (u v : ℝ × ℝ) : ℝ × ℝ := (u.1 - v.1, u.2 - v.2)

/-- Scalar multiple (`Vector3.multiplyScalar`). -/
def smulH (c : ℝ) (v : ℝ × ℝ) : ℝ × ℝ := (c * v.1, c * v.2)

/-- Constant `moveSpeed = 0.1` from `App.tsx`. -/
noncomputable def moveSpeed : ℝ := 1/10

/-- Composition of the movement direction from the four directional intents,
as in `updatePlayerPosition`: start from zero, add `forward`, subtract it for
`backward`, subtract `right` for `left`, add it for `right`. -/
def moveDirection (f r : ℝ × ℝ) (fw bw lt rt : Bool) : ℝ × ℝ :=
  let d : ℝ × ℝ := (0, 0)
  let d := if fw then vaddH d f else d
  let d := if bw then vsubH d f else d
  let d := if lt then vsubH d r else d
  let d := if rt then vaddH d r else d
  d

/-- The committed per-tick movement vector: when the composed direction is
nonzero, `moveDirection.normalize().multiplyScalar(moveSpeed)` — normalise
first, scale second. -/
noncomputable def moveVector (f r : ℝ × ℝ) (fw bw lt rt : Bool) : ℝ × ℝ :=
  let d := moveDirection f r fw bw lt rt
  if 0 < vlen d then smulH moveSpeed (smulH (1 / vlen d) d) else d

/-! ## Terrain generation

`generateTerrain` samples unseeded trig-hash noise and `Math.random`.  Those
samples are pure inputs to the column-filling logic, so the embedding takes
them as an oracle `NoiseEnv`; every field corresponds to one sampling site in
the source.  The integer arithmetic on the samples (floors, offsets, loop
bounds) is transcribed directly. -/

/-- Oracle for the pseudo-random samples drawn by `generateTerrain`. -/
structure NoiseEnv where
  /-- Models `Math.floor(baseHeight)`, the floored sum of the three height
  noise samples at scales 0.1/0.2/0.5 and amplitudes 4/2/1 (range [-4, 10]
  for the actual trig hash). -/
  heightFloor : ℕ → ℕ → ℤ
  /-- Models the rocky-outcrop test `noise(x,z,0.3,1) > 0.8 && baseHeight > 3`. -/
  outcrop : ℕ → ℕ → Bool
  /-- Models `Math.floor(noise(x, z, 0.4, 2))` (range [-1, 3] for the actual
  trig hash). -/
  dirtNoiseFloor : ℕ → ℕ → ℤ
  /-- Models the dirt-pocket test `noise3D(x, y, z) > 0.9`. -/
  ore : ℕ → ℤ → ℕ → Bool
  /-- Models the tree roll `Math.random() < 0.05`. -/
  treeRoll : ℕ → ℕ → Bool
  /-- Models `Math.floor(Math.random() * 3)` in `generateTree` (range [0, 2]). -/
  trunkRand : ℕ → ℕ → ℕ
  /-- Models `Math.floor(Math.random() * 1)` in `generateTree`. -/
  leafRadiusRand : ℕ → ℕ → ℕ
  /-- Models `Math.floor(Math.random() * 2)` in `generateTree` (range [0, 1]). -/
  leafHeightRand : ℕ → ℕ → ℕ
  /-- Models the per-leaf skip roll `Math.random() > 0.8`. -/
  leafSkip : ℕ → ℕ → ℕ → ℤ → ℤ → Bool

/-- Column surface height: `Math.floor(baseHeight) - 2`. -/
def columnHeight (env : NoiseEnv) (x z : ℕ) : ℤ :=
  env.heightFloor x z - 2

/-- Top-layer block type: `grass`, or `stone` on a rocky outcrop. -/
def columnTopType (env : NoiseEnv) (x z : ℕ) : BlockType :=
  if env.outcrop x z then BlockType.stone else BlockType.grass

/-- Dirt layer depth: 1 under stone, `Math.floor(noise(x,z,0.4,2)) + 2`
under grass. -/
def columnDirtDepth (env : NoiseEnv) (x z : ℕ) : ℤ :=
  if columnTopType env x z = BlockType.stone then 1
  else env.dirtNoiseFloor x z + 2

/-- Dirt blocks of a column: `for (y = 1; y <= dirtDepth; y++)` placing dirt
at `height - y`. -/
def columnDirt (env : NoiseEnv) (x z : ℕ) : List (Pos3 × BlockType) :=
  (List.range (columnDirtDepth env x z).toNat).map fun (i : ℕ) =>
    (⟨(x : ℤ), columnHeight env x z - ((i : ℤ) + 1), (z : ℤ)⟩, BlockType.dirt)

/-- Stone fill of a column:
`for (y = dirtDepth + 1; y <= Math.abs(bedrockLevel - height); y++)` placing
stone (or a dirt pocket) at `height - y`. -/
def columnStone (env : NoiseEnv) (x z : ℕ) : List (Pos3 × BlockType) :=
  let height := columnHeight env x z
  let d := columnDirtDepth env x z
  let upper : ℤ := ((bedrockLevel - height).natAbs : ℤ)
  (List.range (upper - d).toNat).map fun (i : ℕ) =>
    let y : ℤ := d + 1 + (i : ℤ)
    (⟨(x : ℤ), height - y, (z : ℤ)⟩,
     if env.ore x y z then BlockType.dirt else BlockType.stone)

/-- The single bedrock block of a column, at the fixed bedrock level. -/
def columnBedrock (x z : ℕ) : List (Pos3 × BlockType) :=
  [(⟨(x : ℤ), bedrockLevel, (z : ℤ)⟩, BlockType.bedrock)]

/-- Embedding of `generateTree(x, z, baseHeight)`: a trunk of
`Math.floor(Math.random()*3) + 3` wood blocks starting one cell above the
surface, topped by layered leaf rings with rounded corners and randomly
skipped cells. -/
def treeBlocksRaw (env : NoiseEnv) (x z : ℕ) (baseHeight : ℤ) :
    List (Pos3 × BlockType) :=
  let trunkHeight : ℕ := env.trunkRand x z + 3
  let trunk :=
    (List.range trunkHeight).map fun y =>
      (⟨(x : ℤ), baseHeight + (y : ℤ) + 1, (z : ℤ)⟩, BlockType.wood)
  let leafRadius : ℕ := env.leafRadiusRand x z + 2
  let leafHeight : ℕ := env.leafHeightRand x z + 2
  let leafStartHeight : ℕ := trunkHeight - 1
  let leaves :=
    (List.range leafHeight).flatMap fun y =>
      let layerRadius : ℕ :=
        if y = 0 ∨ y = leafHeight - 1 then max 1 (leafRadius - 1)
        else leafRadius
      (List.range (2 * layerRadius + 1)).flatMap fun i =>
        (List.range (2 * layerRadius + 1)).flatMap fun j =>
          let lx : ℤ := (i : ℤ) - (layerRadius : ℤ)
          let lz : ℤ := (j : ℤ) - (layerRadius : ℤ)
          if lx * lx + lz * lz > (layerRadius : ℤ) * (layerRadius : ℤ) + 1 then []
          else if env.leafSkip x z y lx lz then []
          else
            [(⟨(x : ℤ) + lx, baseHeight + (leafStartHeight : ℤ) + (y : ℤ),
               (z : ℤ) + lz⟩, BlockType.leaves)]
  trunk ++ leaves

/-- Tree contribution of a column: only interior grass-topped columns with a
successful 5% roll get a tree. -/
def columnTree (env : NoiseEnv) (x z : ℕ) : List (Pos3 × BlockType) :=
  if columnTopType env x z = BlockType.grass ∧ 2 < x ∧ x < WORLD_SIZE - 3 ∧
      2 < z ∧ z < WORLD_SIZE - 3 ∧ env.treeRoll x z then
    treeBlocksRaw env x z (columnHeight env x z)
  else []

/-- All blocks created while processing column `(x, z)`, in creation order:
top block, dirt layer, stone fill, bedrock, then a possible tree. -/
def columnBlocksRaw (env : NoiseEnv) (x z : ℕ) : List (Pos3 × BlockType) :=
  [(⟨(x : ℤ), columnHeight env x z, (z : ℤ)⟩, columnTopType env x z)] ++
    columnDirt env x z ++ columnStone env x z ++ columnBedrock x z ++
    columnTree env x z

/-- All terrain blocks in creation order: the double loop
`for x in [0, WORLD_SIZE) { for z in [0, WORLD_SIZE) { ... } }`. -/
def terrainRaw (env : NoiseEnv) : List (Pos3 × BlockType) :=
  (List.range WORLD_SIZE).flatMap fun x =>
    (List.range WORLD_SIZE).flatMap fun z => columnBlocksRaw env x z

/-- Position and type of a block, forgetting its mesh identity. -/
def posType (b : Block) : Pos3 × BlockType := (b.position, b.type)

/-- Embedding of `generateTerrain()`: every generated block is pushed onto
`blocks.current` by `createBlock`, so mesh identities are the positions in
creation order. -/
def generateTerrain (env : NoiseEnv) : List Block :=
  (terrainRaw env).enum.map fun p => ⟨p.2.1, p.2.2, p.1⟩

/-! ## Concrete fixtures

Closed instances used to evaluate the embedded operations on concrete
inputs: a grass block at the origin, a stone block directly above it, the
initial inventory of the component, and raycast resolvers for those scenes. -/

/-- A grass block at the origin with mesh identity 0. -/
def blockA : Block := ⟨⟨0, 0, 0⟩, BlockType.grass, 0⟩

/-- A stone block at (0, 1, 0) with mesh identity 1. -/
def blockB : Block := ⟨⟨0, 1, 0⟩, BlockType.stone, 1⟩

/-- The initial inventory from the component state: six slots of 64. -/
def invFull : List InvSlot :=
  [⟨BlockType.grass, 64⟩, ⟨BlockType.dirt, 64⟩, ⟨BlockType.stone, 64⟩,
   ⟨BlockType.bedrock, 64⟩, ⟨BlockType.wood, 64⟩, ⟨BlockType.leaves, 64⟩]

/-- Scene with only `blockA`, full inventory, slot 0 selected. -/
def sFree : AppState := ⟨[blockA], none, false, 0, invFull, 0⟩

/-- Scene with `blockA` and `blockB` (which occupies the cell above
`blockA`), full inventory, slot 0 selected. -/
def sOcc : AppState := ⟨[blockA, blockB], none, false, 0, invFull, 0⟩

/-- Scene with only `blockA` and an exhausted selected slot. -/
def sZero : AppState := ⟨[blockA], none, false, 0, [⟨BlockType.grass, 0⟩], 0⟩

/-- Placement raycast that hits mesh 0 on its +Y face. -/
def pickTopA : List Block → Option PlacementHit := fun _ => some ⟨0, ⟨0, 1, 0⟩⟩

/-- Destruction/highlight raycast resolving to the first block of the list. -/
def pickFirst : List Block → Option ℕ := fun bs => bs.head?.map fun b => b.id

/-- Raycast that misses every block. -/
def pickMiss : List Block → Option ℕ := fun _ => none

/-- Collision environment in which no block box intersects the player and no
ground ray hits: free fall. -/
def envEmpty : CollisionEnv := ⟨fun _ _ => false, fun _ _ => false⟩

/-- An airborne player high above the scene. -/
def pAir : PlayerPhys := ⟨5, 10, 5, 0, false⟩

/-- A player standing on the ground. -/
def pGround : PlayerPhys := ⟨5, 2, 5, 0, true⟩

/-- Move state with no intents. -/
def msIdle : MoveState := ⟨false, false, false, false, 0, 0, false⟩

/-- Move state with an active jump intent. -/
def msJump : MoveState := ⟨false, false, false, false, 0, 0, true⟩

/-- Zero displacement. -/
def vZero : Vec3 := ⟨0, 0, 0⟩

/-- Test whether a generated entry is the bedrock block of column (x, z). -/
def isColBedrock (x z : ℕ) (pt : Pos3 × BlockType) : Bool :=
  pt.1.x = (x : ℤ) ∧ pt.1.z = (z : ℤ) ∧ pt.2 = BlockType.bedrock

/-- A constant noise oracle, with every sample inside the reachable range of
the unseeded trig-hash noise of the source: flat terrain of surface height
-2, no outcrops, dirt depth 2, no ore pockets, no trees. -/
def cexEnv : NoiseEnv :=
  ⟨fun _ _ => 0, fun _ _ => false, fun _ _ => 0, fun _ _ _ => false,
   fun _ _ => false, fun _ _ => 0, fun _ _ => 0, fun _ _ => 0,
   fun _ _ _ _ _ => false⟩

/-! ## Helper lemmas for the placement operation -/

/-- Characterisation of the inventory after one placement attempt: either it
is untouched, or the selected slot existed with positive count and exactly
that slot was decremented. -/
theorem addBlock_inventory_cases (pick : List Block → Option PlacementHit)
    (freshId : ℕ) (s : AppState) :
    (addBlockAtPosition pick freshId s).inventory = s.inventory ∨
    ∃ slot, s.inventory.get? s.selectedBlockIndex = some slot ∧ 0 < slot.count ∧
      (addBlockAtPosition pick freshId s).inventory
        = s.inventory.set s.selectedBlockIndex ⟨slot.type, slot.count - 1⟩ := by
  unfold addBlockAtPosition
  cases hg : s.inventory.get? s.selectedBlockIndex with
  | none => left; rfl
  | some slot =>
    by_cases hc : slot.count ≤ 0
    · left; simp [hc]
    · cases hp : pick s.blocks with
      | none => left; simp [hc]
      | some hit =>
        cases hf : s.blocks.find? (fun b => b.id = hit.blockId) with
        | none => left; simp [hc, hf]
        | some clicked =>
          by_cases hany : ∃ x ∈ s.blocks,
            x.position = targetCell clicked.position hit.normal
          · left; simp [hc, hf, hany]
          · right
            refine ⟨slot, rfl, by omega, ?_⟩
            simp [hc, hf, hany, if_pos (show (0:ℤ) < slot.count by omega)]

/-- A placement attempt with an exhausted selected slot is a no-op. -/
theorem addBlock_zero_noop (pick : List Block → Option PlacementHit)
    (freshId : ℕ) (s : AppState) (slot : InvSlot)
    (hg : s.inventory.get? s.selectedBlockIndex = some slot)
    (hc : slot.count = 0) :
    addBlockAtPosition pick freshId s = s := by
  unfold addBlockAtPosition
  rw [hg]
  simp [hc]

/-! ## Claims about placement -/

/-- Claim C5: a placement attempt whose computed target cell is already
occupied is a no-op — the state (block registry and all inventory counts) is
returned unchanged. -/
theorem c5_occupied_placement_noop (pick : List Block → Option PlacementHit)
    (freshId : ℕ) (s : AppState) (hit : PlacementHit) (clicked : Block)
    (hp : pick s.blocks = some hit)
    (hf : s.blocks.find? (fun b => b.id = hit.blockId) = some clicked)
    (hocc : ∃ b ∈ s.blocks,
      b.position = targetCell clicked.position hit.normal) :
    addBlockAtPosition pick freshId s = s := by
  unfold addBlockAtPosition
  cases hg : s.inventory.get? s.selectedBlockIndex with
  | none => rfl
  | some slot =>
    by_cases hc : slot.count ≤ 0
    · simp [hc]
    · simp [hc, hp, hf, hocc]

/-- Witness for C5: hitting the +Y face of the origin block while the cell
above is occupied leaves the scene untouched. -/
theorem c5_witness : addBlockAtPosition pickTopA 7 sOcc = sOcc :=
  c5_occupied_placement_noop pickTopA 7 sOcc ⟨0, ⟨0, 1, 0⟩⟩ blockA rfl
    (by decide) ⟨blockB, by decide, by decide⟩

/-- Claim C4: a successful placement (slot nonempty, raycast hit, target cell
free) appends exactly one block whose cell is the hit block's position plus
the hit face's world-space normal — one unit step, since `BLOCK_SIZE = 1`. -/
theorem c4_face_adjacent_placement (pick : List Block → Option PlacementHit)
    (freshId : ℕ) (s : AppState) (hit : PlacementHit) (clicked : Block)
    (slot : InvSlot)
    (hg : s.inventory.get? s.selectedBlockIndex = some slot)
    (hcount : 0 < slot.count)
    (hp : pick s.blocks = some hit)
    (hf : s.blocks.find? (fun b => b.id = hit.blockId) = some clicked)
    (hfree : s.blocks.any
      (fun b => b.position = targetCell clicked.position hit.normal) = false) :
    (addBlockAtPosition pick freshId s).blocks
      = s.blocks ++ [⟨targetCell clicked.position hit.normal, slot.type, freshId⟩]
    ∧ targetCell clicked.position hit.normal
      = ⟨clicked.position.x + hit.normal.x, clicked.position.y + hit.normal.y,
         clicked.position.z + hit.normal.z⟩ := by
  have hc : ¬ slot.count ≤ 0 := by omega
  have hnocc : ¬ ∃ x ∈ s.blocks,
      x.position = targetCell clicked.position hit.normal := by
    rintro ⟨b, hb, he⟩
    have ht : (s.blocks.any
        fun b => b.position = targetCell clicked.position hit.normal) = true :=
      List.any_eq_true.mpr ⟨b, hb, decide_eq_true he⟩
    rw [hfree] at ht
    exact Bool.false_ne_true ht
  refine ⟨?_, by simp [targetCell, BLOCK_SIZE]⟩
  unfold addBlockAtPosition
  rw [hg]
  simp [hc, hp, hf, hnocc, hcount]

/-- Witness for C4: with a single block at the origin and a raycast hit on
its +Y face, the new block lands at exactly (0, 1, 0). -/
theorem c4_witness :
    (addBlockAtPosition pickTopA 1 sFree).blocks
      = [blockA, ⟨⟨0, 1, 0⟩, BlockType.grass, 1⟩]
    ∧ targetCell ⟨0, 0, 0⟩ ⟨0, 1, 0⟩ = ⟨0, 1, 0⟩ := by
  have h := c4_face_adjacent_placement pickTopA 1 sFree ⟨0, ⟨0, 1, 0⟩⟩ blockA
    ⟨BlockType.grass, 64⟩ rfl (by decide) rfl (by decide) (by decide)
  simpa [sFree, blockA, targetCell, BLOCK_SIZE] using h

/-- Claim C6: across any sequence of placement attempts, inventory counts
stay non-negative, and if the selected slot's count is 0 the whole sequence
is a no-op (count stays 0 and no block is inserted). -/
theorem c6_inventory_never_negative
    (atts : List ((List Block → Option PlacementHit) × ℕ)) (s : AppState) :
    ((∀ slot ∈ s.inventory, 0 ≤ slot.count) →
      ∀ slot ∈ (placeMany atts s).inventory, 0 ≤ slot.count)
    ∧ (∀ slot, s.inventory.get? s.selectedBlockIndex = some slot →
        slot.count = 0 → placeMany atts s = s) := by
  induction atts generalizing s with
  | nil => exact ⟨fun h => h, fun _ _ _ => rfl⟩
  | cons att rest ih =>
    constructor
    · intro h
      have hstep : ∀ slot ∈ (addBlockAtPosition att.1 att.2 s).inventory,
          0 ≤ slot.count := by
        rcases addBlock_inventory_cases att.1 att.2 s with hsame | ⟨sl, hg, hpos, hset⟩
        · rw [hsame]; exact h
        · rw [hset]
          intro slot' hmem
          rcases List.mem_or_eq_of_mem_set hmem with hin | heq
          · exact h slot' hin
          · subst heq; simp; omega
      have : placeMany (att :: rest) s
          = placeMany rest (addBlockAtPosition att.1 att.2 s) := rfl
      rw [this]
      exact (ih (addBlockAtPosition att.1 att.2 s)).1 hstep
    · intro slot hg hc
      have hno : addBlockAtPosition att.1 att.2 s = s :=
        addBlock_zero_noop att.1 att.2 s slot hg hc
      have : placeMany (att :: rest) s
          = placeMany rest (addBlockAtPosition att.1 att.2 s) := rfl
      rw [this, hno]
      exact (ih s).2 slot hg hc

/-- Witness for C6: one placement attempt on an exhausted slot leaves the
count at zero and the scene untouched. -/
theorem c6_witness :
    (0 : ℤ) ≤ InvSlot.count ⟨BlockType.grass, 0⟩
    ∧ placeMany [(pickTopA, 5)] sZero = sZero := by
  have h := c6_inventory_never_negative [(pickTopA, 5)] sZero
  refine ⟨?_, h.2 ⟨BlockType.grass, 0⟩ rfl rfl⟩
  have hz : placeMany [(pickTopA, 5)] sZero = sZero :=
    h.2 ⟨BlockType.grass, 0⟩ rfl rfl
  have := h.1 (by decide) ⟨BlockType.grass, 0⟩ (by rw [hz]; decide)
  exact this

/-! ## Helper lemmas for the destruction session -/

/-- Cancelling an in-progress (or idle) session never touches the block
registry. -/
theorem cancel_blocks (s : AppState) :
    (cancelDestructionProgress s).blocks = s.blocks := by
  unfold cancelDestructionProgress
  split <;> rfl

/-- Highlighting never touches the block registry. -/
theorem highlight_blocks (pick : List Block → Option ℕ) (s : AppState) :
    (highlightBlockAtPosition pick s).blocks = s.blocks := by
  unfold highlightBlockAtPosition
  cases hp : pick s.blocks with
  | none => rfl
  | some mid =>
    cases hf : s.blocks.find? (fun b => b.id = mid) with
    | none => simp [hf]
    | some clicked => simp [hf]

/-- Starting a destruction session never touches the block registry. -/
theorem startDestruction_blocks (pick : List Block → Option ℕ) (s : AppState) :
    (startDestructionProgress pick s).blocks = s.blocks := by
  unfold startDestructionProgress
  exact highlight_blocks pick _

/-- Effect of `destroyBlockAtPosition` on the registry when its fresh raycast
resolves to a block. -/
theorem destroy_blocks_of_hit (pick : List Block → Option ℕ) (s : AppState)
    (mid : ℕ) (clicked : Block)
    (hp : pick s.blocks = some mid)
    (hf : s.blocks.find? (fun b => b.id = mid) = some clicked) :
    (destroyBlockAtPosition pick s).blocks
      = s.blocks.filter (fun b => b.id ≠ clicked.id) := by
  unfold destroyBlockAtPosition
  simp [hp, hf]

/-- Effect of `destroyBlockAtPosition` when its fresh raycast misses. -/
theorem destroy_blocks_of_miss (pick : List Block → Option ℕ) (s : AppState)
    (hp : pick s.blocks = none) :
    (destroyBlockAtPosition pick s).blocks = s.blocks := by
  unfold destroyBlockAtPosition
  simp [hp]

/-! ## Claims about the destruction interaction -/

/-- Claim C10: completing a destruction removes the block determined by a
fresh raycast on the current registry (not a stored session target) — when
that raycast misses, no block is removed — and the destruction-progress
state is reset in every case, before the raycast is even consulted. -/
theorem c10_destroy_fresh_raycast (pick : List Block → Option ℕ)
    (s : AppState) (mid : ℕ) :
    ((destroyBlockAtPosition pick s).isDestructionInProgress = false
      ∧ (destroyBlockAtPosition pick s).destructionProgress = 0)
    ∧ (pick s.blocks = none →
        destroyBlockAtPosition pick s
          = { s with isDestructionInProgress := false, destructionProgress := 0 })
    ∧ (∀ clicked, pick s.blocks = some mid →
        s.blocks.find? (fun b => b.id = mid) = some clicked →
        (destroyBlockAtPosition pick s).blocks
          = s.blocks.filter (fun b => b.id ≠ clicked.id)) := by
  refine ⟨?_, ?_, ?_⟩
  · simp only [destroyBlockAtPosition]
    cases hp : pick s.blocks with
    | none => simp
    | some m =>
      cases hf : s.blocks.find? (fun b => b.id = m) with
      | none => simp [hf]
      | some clicked => simp [hf]
  · intro hp
    simp only [destroyBlockAtPosition]
    simp [hp]
  · intro clicked hp hf
    exact destroy_blocks_of_hit pick s mid clicked hp hf

/-- Witness for C10: a missed raycast only resets the progress state, and a
hit raycast removes exactly the resolved block. -/
theorem c10_witness :
    destroyBlockAtPosition pickMiss sFree
      = { sFree with isDestructionInProgress := false, destructionProgress := 0 }
    ∧ (destroyBlockAtPosition pickFirst sFree).blocks
      = sFree.blocks.filter (fun b => b.id ≠ blockA.id) :=
  ⟨(c10_destroy_fresh_raycast pickMiss sFree 0).2.1 rfl,
   (c10_destroy_fresh_raycast pickFirst sFree 0).2.2 blockA rfl (by decide)⟩

/-- Claim C2 as stated is false on the code: a long press released at
session-elapsed time 799ms — strictly below the 800ms required duration —
ends with gesture state END (5), and the `onEnd` handler then destroys the
targeted block immediately. -/
theorem c2_counterexample :
    (799 : ℚ) < 800
    ∧ (sessionRun pickFirst pickFirst (some (799, 5)) sFree).blocks = []
    ∧ sFree.blocks = [blockA] := by decide

/-- Claim C2 amended: a session whose gesture ends with a non-END state
before the 800ms animation completes removes no block; a release with
gesture state END triggers an immediate destruction at the release point
regardless of elapsed time; and a session that reaches 800ms uninterrupted
removes exactly the block resolved by the fresh completion-time raycast. -/
theorem c2_amended_session (pickS pickR : List Block → Option ℕ) (t : ℚ)
    (st : ℕ) (s : AppState) :
    (t < 800 → st ≠ 5 →
      (sessionRun pickS pickR (some (t, st)) s).blocks = s.blocks)
    ∧ (∀ mid clicked, t < 800 → st = 5 → pickR s.blocks = some mid →
        s.blocks.find? (fun b => b.id = mid) = some clicked →
        (sessionRun pickS pickR (some (t, st)) s).blocks
          = s.blocks.filter (fun b => b.id ≠ clicked.id))
    ∧ (∀ mid clicked, pickS s.blocks = some mid →
        s.blocks.find? (fun b => b.id = mid) = some clicked →
        (sessionRun pickS pickR none s).blocks
          = s.blocks.filter (fun b => b.id ≠ clicked.id)) := by
  have hs1 : (startDestructionProgress pickS s).blocks = s.blocks :=
    startDestruction_blocks pickS s
  refine ⟨?_, ?_, ?_⟩
  · intro ht hst
    simp only [sessionRun]
    rw [if_pos ht, if_neg hst]
    rw [cancel_blocks, cancel_blocks, hs1]
  · intro mid clicked ht hst hp hf
    simp only [sessionRun]
    rw [if_pos ht, if_pos hst]
    rw [cancel_blocks]
    rw [destroy_blocks_of_hit pickR _ mid clicked (by rw [hs1]; exact hp)
      (by rw [hs1]; exact hf), hs1]
  · intro mid clicked hp hf
    simp only [sessionRun]
    rw [destroy_blocks_of_hit pickS _ mid clicked (by rw [hs1]; exact hp)
      (by rw [hs1]; exact hf), hs1]

/-- Witness for the amended C2: an interrupted session leaves the registry
untouched; an END-state release and an uninterrupted completion each remove
exactly the resolved block. -/
theorem c2_amended_witness :
    (sessionRun pickFirst pickFirst (some (100, 3)) sFree).blocks = sFree.blocks
    ∧ (sessionRun pickFirst pickFirst (some (100, 5)) sFree).blocks
      = sFree.blocks.filter (fun b => b.id ≠ blockA.id)
    ∧ (sessionRun pickFirst pickFirst none sFree).blocks
      = sFree.blocks.filter (fun b => b.id ≠ blockA.id) :=
  ⟨(c2_amended_session pickFirst pickFirst 100 3 sFree).1 (by decide) (by decide),
   (c2_amended_session pickFirst pickFirst 100 5 sFree).2.1 0 blockA (by decide)
     rfl rfl (by decide),
   (c2_amended_session pickFirst pickFirst 100 5 sFree).2.2 0 blockA rfl (by decide)⟩

/-! ## Helper lemmas for the physics tick -/

/-- When no block intersects the candidate box and no downward ray hits, the
collision loop leaves its accumulator unchanged. -/
theorem foldl_collideStep_id (env : CollisionEnv) (camPos cand : Vec3) :
    ∀ (blocks : List Block) (acc : CollAcc),
      (∀ b ∈ blocks, env.intersects b cand = false) →
      (∀ b ∈ blocks, env.groundRayHit b camPos = false) →
      blocks.foldl (collideStep env camPos cand) acc = acc := by
  intro blocks
  induction blocks with
  | nil => intro acc _ _; rfl
  | cons b rest ih =>
    intro acc h1 h2
    have hb1 := h1 b (List.mem_cons_self b rest)
    have hb2 := h2 b (List.mem_cons_self b rest)
    have hstep : collideStep env camPos cand acc b = acc := by
      unfold collideStep
      rw [hb1, hb2]
      simp
    rw [List.foldl_cons, hstep]
    exact ih acc (fun x hx => h1 x (List.mem_cons_of_mem b hx))
      (fun x hx => h2 x (List.mem_cons_of_mem b hx))

/-- One collision-loop iteration never raises the vertical velocity above
the jump impulse: a landing zeroes it, every other branch keeps it. -/
theorem collideStep_vy_le (env : CollisionEnv) (camPos cand : Vec3)
    (acc : CollAcc) (b : Block) (h : acc.vy ≤ JUMP_FORCE) :
    (collideStep env camPos cand acc b).vy ≤ JUMP_FORCE := by
  have hJ : (0 : ℚ) ≤ JUMP_FORCE := by norm_num [JUMP_FORCE]
  simp only [collideStep]
  repeat' split
  all_goals first | exact h | exact hJ

/-- The collision loop never raises the vertical velocity above the jump
impulse. -/
theorem foldl_collideStep_vy_le (env : CollisionEnv) (camPos cand : Vec3) :
    ∀ (blocks : List Block) (acc : CollAcc), acc.vy ≤ JUMP_FORCE →
      (blocks.foldl (collideStep env camPos cand) acc).vy ≤ JUMP_FORCE := by
  intro blocks
  induction blocks with
  | nil => intro acc h; exact h
  | cons b rest ih =>
    intro acc h
    rw [List.foldl_cons]
    exact ih _ (collideStep_vy_le env camPos cand acc b h)

/-! ## Claims about jumping and gravity -/

/-- Claim C3: from an on-ground state a jump intent sets the vertical
velocity to exactly +0.15 and clears the on-ground flag (both through the
`handleJump` event handler and through the per-tick jump branch), and a tick
with no ground contact and no jump intent decreases the vertical velocity by
exactly the 0.01 gravity constant — strictly decreasing. -/
theorem c3_jump_then_fall (env : CollisionEnv) (blocks : List Block)
    (ms : MoveState) (moveDir : Vec3) (p : PlayerPhys)
    (h1 : ∀ b c, env.intersects b c = false)
    (h2 : ∀ b c, env.groundRayHit b c = false) :
    (p.onGround = true →
      (handleJump true ms p).2.vy = JUMP_FORCE
        ∧ (handleJump true ms p).2.onGround = false)
    ∧ (p.onGround = false → ms.jump = false →
      (updatePlayerPosition env blocks ms moveDir p).vy = p.vy - GRAVITY
        ∧ (updatePlayerPosition env blocks ms moveDir p).onGround = false
        ∧ (updatePlayerPosition env blocks ms moveDir p).vy < p.vy)
    ∧ (p.onGround = true → ms.jump = true →
      (updatePlayerPosition env blocks ms moveDir p).vy = JUMP_FORCE
        ∧ (updatePlayerPosition env blocks ms moveDir p).onGround = false) := by
  have hfold : ∀ (camPos cand : Vec3) (acc : CollAcc),
      blocks.foldl (collideStep env camPos cand) acc = acc :=
    fun camPos cand acc =>
      foldl_collideStep_id env camPos cand blocks acc (fun b _ => h1 b cand)
        (fun b _ => h2 b camPos)
  refine ⟨?_, ?_, ?_⟩
  · intro hog
    simp [handleJump, hog]
  · intro hog hj
    simp only [updatePlayerPosition]
    rw [hfold]
    simp [hog, hj]
    norm_num [GRAVITY]
  · intro hog hj
    simp only [updatePlayerPosition]
    rw [hfold]
    simp [hog, hj]

/-- Witness for C3: a jump from the ground sets velocity +0.15, a free-fall
tick loses exactly 0.01 of velocity, and the in-tick jump branch fires from
the ground. -/
theorem c3_witness :
    ((handleJump true msIdle pGround).2.vy = JUMP_FORCE
      ∧ (handleJump true msIdle pGround).2.onGround = false)
    ∧ ((updatePlayerPosition envEmpty [] msIdle vZero pAir).vy = pAir.vy - GRAVITY
      ∧ (updatePlayerPosition envEmpty [] msIdle vZero pAir).onGround = false
      ∧ (updatePlayerPosition envEmpty [] msIdle vZero pAir).vy < pAir.vy)
    ∧ ((updatePlayerPosition envEmpty [] msJump vZero pGround).vy = JUMP_FORCE
      ∧ (updatePlayerPosition envEmpty [] msJump vZero pGround).onGround = false) :=
  ⟨(c3_jump_then_fall envEmpty [] msIdle vZero pGround (fun _ _ => rfl)
      (fun _ _ => rfl)).1 rfl,
   (c3_jump_then_fall envEmpty [] msIdle vZero pAir (fun _ _ => rfl)
      (fun _ _ => rfl)).2.1 rfl rfl,
   (c3_jump_then_fall envEmpty [] msJump vZero pGround (fun _ _ => rfl)
      (fun _ _ => rfl)).2.2 rfl rfl⟩

/-- Claim C9: every operation that writes the vertical velocity — the jump
event handler and the physics tick (gravity subtraction, in-tick jump branch,
landing snap to zero) — preserves the invariant `vy ≤ JUMP_FORCE = 0.15`. -/
theorem c9_vy_never_exceeds_jump (env : CollisionEnv) (blocks : List Block)
    (ms : MoveState) (moveDir : Vec3) (p : PlayerPhys) (v : Bool)
    (h : p.vy ≤ JUMP_FORCE) :
    (handleJump v ms p).2.vy ≤ JUMP_FORCE
    ∧ (updatePlayerPosition env blocks ms moveDir p).vy ≤ JUMP_FORCE := by
  constructor
  · simp only [handleJump]
    split
    · exact le_refl _
    · exact h
  · simp only [updatePlayerPosition]
    have hG : (0 : ℚ) < GRAVITY := by norm_num [GRAVITY]
    repeat' split
    all_goals
      refine foldl_collideStep_vy_le _ _ _ blocks _ ?_
      dsimp only
      first
        | exact le_refl JUMP_FORCE
        | exact h
        | linarith

/-! ## Helper lemmas for the movement vector -/

/-- Squared norm of a scalar multiple. -/
theorem normSq_smulH (c : ℝ) (v : ℝ × ℝ) : normSq (smulH c v) = c ^ 2 * normSq v := by
  simp only [normSq, smulH]
  ring

/-- Length of a scalar multiple. -/
theorem vlen_smulH (c : ℝ) (v : ℝ × ℝ) : vlen (smulH c v) = |c| * vlen v := by
  unfold vlen
  rw [normSq_smulH, Real.sqrt_mul (sq_nonneg c), Real.sqrt_sq_eq_abs]

/-- A zero-normSq composed direction is committed unchanged and has length
zero (the code skips normalisation when the length is not positive). -/
theorem moveVector_vlen_zero (f r : ℝ × ℝ) (fw bw lt rt : Bool)
    (h0 : normSq (moveDirection f r fw bw lt rt) = 0) :
    vlen (moveVector f r fw bw lt rt) = 0 := by
  have hl : vlen (moveDirection f r fw bw lt rt) = 0 := by
    unfold vlen
    rw [h0, Real.sqrt_zero]
  simp only [moveVector]
  rw [if_neg (by rw [hl]; exact lt_irrefl 0)]
  exact hl

/-- A positive-normSq composed direction is normalised and scaled, giving a
committed vector of length exactly `moveSpeed`. -/
theorem moveVector_vlen_pos (f r : ℝ × ℝ) (fw bw lt rt : Bool) (c : ℝ)
    (hc : 0 < c) (h0 : normSq (moveDirection f r fw bw lt rt) = c) :
    vlen (moveVector f r fw bw lt rt) = moveSpeed := by
  have hL : 0 < vlen (moveDirection f r fw bw lt rt) :=
    Real.sqrt_pos.mpr (by rw [h0]; exact hc)
  have hLne : vlen (moveDirection f r fw bw lt rt) ≠ 0 := ne_of_gt hL
  simp only [moveVector]
  rw [if_pos hL, vlen_smulH, vlen_smulH]
  rw [abs_of_pos (show (0 : ℝ) < moveSpeed by norm_num [moveSpeed]),
    abs_of_pos (by positivity)]
  rw [one_div, inv_mul_cancel₀ hLne, mul_one]

/-! ## Claim about horizontal movement -/

/-- Claim C7: for every combination of the four directional intents, the
committed per-tick horizontal movement vector has length 0 (no intents, or
cancelling intents) or exactly the move speed 0.1 — in particular diagonal
movement never exceeds single-axis speed, because the code normalises before
scaling.  The hypotheses record that the projected camera axes are horizontal
unit vectors and orthogonal, which holds by construction. -/
theorem c7_movement_speed (f r : ℝ × ℝ) (fw bw lt rt : Bool)
    (hf : normSq f = 1) (hr : normSq r = 1) (ho : dotH f r = 0) :
    (vlen (moveVector f r fw bw lt rt) = 0
      ∨ vlen (moveVector f r fw bw lt rt) = moveSpeed)
    ∧ moveSpeed = 1 / 10 := by
  have hf' : f.1 * f.1 + f.2 * f.2 = 1 := hf
  have hr' : r.1 * r.1 + r.2 * r.2 = 1 := hr
  have ho' : f.1 * r.1 + f.2 * r.2 = 0 := ho
  have key : normSq (moveDirection f r fw bw lt rt) = 0
      ∨ 0 < normSq (moveDirection f r fw bw lt rt) := by
    cases fw <;> cases bw <;> cases lt <;> cases rt <;>
      first
        | (left
           simp [moveDirection, normSq, vaddH, vsubH]
           try ring_nf
           done)
        | (right
           simp [moveDirection, normSq, vaddH, vsubH]
           nlinarith [hf', hr', ho'])
  refine ⟨?_, rfl⟩
  rcases key with h0 | hpos
  · exact Or.inl (moveVector_vlen_zero f r fw bw lt rt h0)
  · exact Or.inr (moveVector_vlen_pos f r fw bw lt rt _ hpos rfl)

/-- Witness for C7: with the canonical forward/right axes and a single
forward intent, the committed movement has length 0 or the move speed. -/
theorem c7_witness :
    (vlen (moveVector (0, -1) (1, 0) true false false false) = 0
      ∨ vlen (moveVector (0, -1) (1, 0) true false false false) = moveSpeed)
    ∧ moveSpeed = 1 / 10 :=
  c7_movement_speed (0, -1) (1, 0) true false false false
    (by norm_num [normSq]) (by norm_num [normSq]) (by norm_num [dotH])

/-- Witness for C9: with zero initial velocity both operations keep the
velocity at or below the jump impulse. -/
theorem c9_witness :
    (handleJump true msIdle pAir).2.vy ≤ JUMP_FORCE
    ∧ (updatePlayerPosition envEmpty [] msIdle vZero pAir).vy ≤ JUMP_FORCE :=
  c9_vy_never_exceeds_jump envEmpty [] msIdle vZero pAir true
    (by norm_num [pAir, JUMP_FORCE])

/-! ## Helper lemmas for terrain generation -/

/-- Forgetting the creation-order identities recovers the raw generation
list. -/
theorem map_posType_enumFrom (l : List (Pos3 × BlockType)) :
    ∀ n, ((List.enumFrom n l).map fun p => Block.mk p.2.1 p.2.2 p.1).map posType
      = l := by
  induction l with
  | nil => intro n; rfl
  | cons a rest ih =>
    intro n
    simp only [List.enumFrom, List.map_cons, posType]
    rw [ih (n + 1)]

/-- The generated world projects onto the raw generation list. -/
theorem generateTerrain_map_posType (env : NoiseEnv) :
    (generateTerrain env).map posType = terrainRaw env := by
  unfold generateTerrain
  rw [List.enum_eq_enumFrom]
  exact map_posType_enumFrom (terrainRaw env) 0

/-- A generation fragment containing no bedrock-typed entry contributes
nothing to the per-column bedrock count. -/
theorem countP_isColBedrock_eq_zero (x z : ℕ) (l : List (Pos3 × BlockType))
    (h : ∀ pt ∈ l, pt.2 ≠ BlockType.bedrock) :
    l.countP (isColBedrock x z) = 0 := by
  rw [List.countP_eq_zero]
  intro pt hpt
  have hb := h pt hpt
  simp [isColBedrock, hb]

/-- Membership in a doubly guarded singleton forces equality with its
element. -/
theorem mem_ite_nil_nil_singleton {α : Type} {pt e : α} {c1 c2 : Prop}
    [Decidable c1] [Decidable c2]
    (h : pt ∈ (if c1 then ([] : List α) else if c2 then [] else [e])) :
    pt = e := by
  by_cases h1 : c1
  · rw [if_pos h1] at h
    simp at h
  · rw [if_neg h1] at h
    by_cases h2 : c2
    · rw [if_pos h2] at h
      simp at h
    · rw [if_neg h2] at h
      exact List.mem_singleton.mp h

/-- Membership in a guarded list implies membership in the list. -/
theorem mem_of_mem_ite_nil {α : Type} {a : α} {c : Prop} [Decidable c]
    {l : List α} (h : a ∈ (if c then l else [])) : a ∈ l := by
  by_cases hc : c
  · rwa [if_pos hc] at h
  · rw [if_neg hc] at h
    simp at h

/-- Every block a tree generates is wood or leaves. -/
theorem mem_treeBlocksRaw_snd (env : NoiseEnv) (x z : ℕ) (bh : ℤ) :
    ∀ pt ∈ treeBlocksRaw env x z bh,
      pt.2 = BlockType.wood ∨ pt.2 = BlockType.leaves := by
  intro pt hpt
  simp only [treeBlocksRaw] at hpt
  rcases List.mem_append.mp hpt with h | h
  · obtain ⟨y, -, rfl⟩ := List.mem_map.mp h
    exact Or.inl rfl
  · obtain ⟨y, -, hy⟩ := List.mem_flatMap.mp h
    obtain ⟨i, -, hi⟩ := List.mem_flatMap.mp hy
    obtain ⟨j, -, hj⟩ := List.mem_flatMap.mp hi
    rw [mem_ite_nil_nil_singleton hj]
    exact Or.inr rfl

/-- Each column contributes exactly one entry matching the bedrock test of
column (x, z): its own bedrock block when the coordinates agree, nothing
otherwise. -/
theorem countP_columnBlocksRaw (env : NoiseEnv) (x z x' z' : ℕ) :
    (columnBlocksRaw env x' z').countP (isColBedrock x z)
      = if x' = x ∧ z' = z then 1 else 0 := by
  unfold columnBlocksRaw
  rw [List.countP_append, List.countP_append, List.countP_append,
    List.countP_append]
  rw [countP_isColBedrock_eq_zero x z
      [(⟨(x' : ℤ), columnHeight env x' z', (z' : ℤ)⟩, columnTopType env x' z')]
      ?htop,
    countP_isColBedrock_eq_zero x z (columnDirt env x' z') ?hdirt,
    countP_isColBedrock_eq_zero x z (columnStone env x' z') ?hstone,
    countP_isColBedrock_eq_zero x z (columnTree env x' z') ?htree]
  case htop =>
    intro pt hpt
    rw [List.mem_singleton] at hpt
    subst hpt
    unfold columnTopType
    split <;> simp
  case hdirt =>
    intro pt hpt
    simp only [columnDirt] at hpt
    obtain ⟨i, -, rfl⟩ := List.mem_map.mp hpt
    simp
  case hstone =>
    intro pt hpt
    simp only [columnStone] at hpt
    obtain ⟨i, -, rfl⟩ := List.mem_map.mp hpt
    split <;> simp
  case htree =>
    intro pt hpt
    unfold columnTree at hpt
    have hpt' : pt ∈ treeBlocksRaw env x' z' (columnHeight env x' z') :=
      mem_of_mem_ite_nil hpt
    rcases mem_treeBlocksRaw_snd env x' z' _ pt hpt' with h | h <;> simp [h]
  simp only [columnBedrock, List.countP_singleton, isColBedrock]
  by_cases hxz : x' = x ∧ z' = z
  · obtain ⟨rfl, rfl⟩ := hxz
    simp
  · have hne : ¬ (((x' : ℕ) : ℤ) = ((x : ℕ) : ℤ)
        ∧ ((z' : ℕ) : ℤ) = ((z : ℕ) : ℤ)
        ∧ BlockType.bedrock = BlockType.bedrock) := by
      simpa [Int.natCast_inj] using hxz
    simp [hne, hxz]

/-- Sum over an initial segment of a function that vanishes away from one
index. -/
theorem sum_map_range_eq_single (n j : ℕ) (f : ℕ → ℕ) (hj : j < n)
    (h0 : ∀ i, i ≠ j → f i = 0) :
    ((List.range n).map f).sum = f j := by
  induction n with
  | zero => omega
  | succ m ih =>
    rw [List.range_succ, List.map_append, List.sum_append]
    by_cases hjm : j = m
    · subst hjm
      have hz : ((List.range j).map f).sum = 0 :=
        List.sum_eq_zero (by
          intro a ha
          obtain ⟨i, hi, rfl⟩ := List.mem_map.mp ha
          exact h0 i (by have := List.mem_range.mp hi; omega))
      simp [hz]
    · have hj' : j < m := by omega
      rw [ih hj']
      simp [h0 m (Ne.symm hjm)]

/-- The full terrain holds exactly one bedrock entry for each in-range
column. -/
theorem countP_terrainRaw (env : NoiseEnv) (x z : ℕ)
    (hx : x < WORLD_SIZE) (hz : z < WORLD_SIZE) :
    (terrainRaw env).countP (isColBedrock x z) = 1 := by
  unfold terrainRaw
  rw [List.countP_flatMap]
  have hinner : ∀ x' : ℕ,
      ((List.range WORLD_SIZE).flatMap fun z' =>
        columnBlocksRaw env x' z').countP (isColBedrock x z)
        = if x' = x then 1 else 0 := by
    intro x'
    rw [List.countP_flatMap]
    by_cases hx' : x' = x
    · subst hx'
      rw [if_pos rfl]
      rw [sum_map_range_eq_single WORLD_SIZE z
        (List.countP (isColBedrock x' z) ∘ fun z' => columnBlocksRaw env x' z')
        hz ?hz0]
      case hz0 =>
        intro i hi
        simp only [Function.comp_apply]
        rw [countP_columnBlocksRaw]
        simp [hi]
      simp only [Function.comp_apply]
      rw [countP_columnBlocksRaw]
      simp
    · rw [if_neg hx']
      apply List.sum_eq_zero
      intro a ha
      obtain ⟨z', -, rfl⟩ := List.mem_map.mp ha
      simp only [Function.comp_apply]
      rw [countP_columnBlocksRaw]
      simp [hx']
  rw [sum_map_range_eq_single WORLD_SIZE x
    (List.countP (isColBedrock x z) ∘ fun x' =>
      (List.range WORLD_SIZE).flatMap fun z' => columnBlocksRaw env x' z')
    hx ?hx0]
  case hx0 =>
    intro i hi
    simp only [Function.comp_apply]
    rw [hinner i, if_neg hi]
  simp only [Function.comp_apply]
  rw [hinner x, if_pos rfl]

/-- Every bedrock entry of the terrain sits at the fixed bedrock level. -/
theorem terrainRaw_bedrock_y (env : NoiseEnv) :
    ∀ pt ∈ terrainRaw env, pt.2 = BlockType.bedrock →
      pt.1.y = bedrockLevel := by
  intro pt hpt hb
  unfold terrainRaw at hpt
  obtain ⟨x', -, h⟩ := List.mem_flatMap.mp hpt
  obtain ⟨z', -, hcol⟩ := List.mem_flatMap.mp h
  unfold columnBlocksRaw at hcol
  rcases List.mem_append.mp hcol with h4 | htree
  · rcases List.mem_append.mp h4 with h3 | hbed
    · rcases List.mem_append.mp h3 with h2 | hstone
      · rcases List.mem_append.mp h2 with htop | hdirt
        · rw [List.mem_singleton] at htop
          subst htop
          unfold columnTopType at hb
          split at hb <;> simp at hb
        · simp only [columnDirt] at hdirt
          obtain ⟨i, -, rfl⟩ := List.mem_map.mp hdirt
          simp at hb
      · simp only [columnStone] at hstone
        obtain ⟨i, -, rfl⟩ := List.mem_map.mp hstone
        split at hb <;> simp at hb
    · simp only [columnBedrock, List.mem_singleton] at hbed
      subst hbed
      rfl
  · unfold columnTree at htree
    have htree' : pt ∈ treeBlocksRaw env x' z' (columnHeight env x' z') :=
      mem_of_mem_ite_nil htree
    rcases mem_treeBlocksRaw_snd env x' z' _ pt htree' with h | h <;>
      rw [h] at hb <;> simp at hb

/-- The surface block of every in-range column is part of the terrain. -/
theorem top_block_mem (env : NoiseEnv) (x z : ℕ)
    (hx : x < WORLD_SIZE) (hz : z < WORLD_SIZE) :
    ((⟨(x : ℤ), columnHeight env x z, (z : ℤ)⟩ : Pos3), columnTopType env x z)
      ∈ terrainRaw env := by
  unfold terrainRaw
  refine List.mem_flatMap.mpr ⟨x, List.mem_range.mpr hx, ?_⟩
  refine List.mem_flatMap.mpr ⟨z, List.mem_range.mpr hz, ?_⟩
  unfold columnBlocksRaw
  simp

/-! ## Claim about the terrain scenario -/

/-- Claim C8: for every noise oracle, a generated 10×10 world has exactly one
bedrock-typed block per column, every bedrock block sits at the fixed level
y = -7, and every column's surface block has type grass or stone. -/
theorem c8_terrain_scenario (env : NoiseEnv) (x z : ℕ)
    (hx : x < WORLD_SIZE) (hz : z < WORLD_SIZE) :
    (generateTerrain env).countP (isColBedrock x z ∘ posType) = 1
    ∧ (∀ b ∈ generateTerrain env, b.type = BlockType.bedrock →
        b.position.y = bedrockLevel)
    ∧ (∃ b ∈ generateTerrain env,
        b.position = ⟨(x : ℤ), columnHeight env x z, (z : ℤ)⟩
        ∧ (b.type = BlockType.grass ∨ b.type = BlockType.stone)) := by
  refine ⟨?_, ?_, ?_⟩
  · rw [← List.countP_map, generateTerrain_map_posType]
    exact countP_terrainRaw env x z hx hz
  · intro b hb hbed
    have hmem : posType b ∈ (generateTerrain env).map posType :=
      List.mem_map_of_mem posType hb
    rw [generateTerrain_map_posType] at hmem
    exact terrainRaw_bedrock_y env (posType b) hmem hbed
  · have hmem := top_block_mem env x z hx hz
    rw [← generateTerrain_map_posType] at hmem
    obtain ⟨b, hb, heq⟩ := List.mem_map.mp hmem
    refine ⟨b, hb, ?_, ?_⟩
    · exact congrArg Prod.fst heq
    · have ht : b.type = columnTopType env x z := congrArg Prod.snd heq
      rw [ht]
      unfold columnTopType
      split
      · exact Or.inr rfl
      · exact Or.inl rfl

/-- Witness for C8: the flat constant oracle at column (0, 0). -/
theorem c8_witness :
    (generateTerrain cexEnv).countP (isColBedrock 0 0 ∘ posType) = 1
    ∧ (∀ b ∈ generateTerrain cexEnv, b.type = BlockType.bedrock →
        b.position.y = bedrockLevel)
    ∧ (∃ b ∈ generateTerrain cexEnv,
        b.position = ⟨(0 : ℤ), columnHeight cexEnv 0 0, (0 : ℤ)⟩
        ∧ (b.type = BlockType.grass ∨ b.type = BlockType.stone)) :=
  c8_terrain_scenario cexEnv 0 0 (by decide) (by decide)

/-! ## Helper lemmas for the uniqueness invariant -/

/-- A position-unique registry holds at most one block at any cell. -/
theorem countP_pos_le_one_of_posUnique (bs : List Block) (p : Pos3)
    (h : PosUnique bs) :
    bs.countP (fun b => b.position = p) ≤ 1 := by
  induction bs with
  | nil => simp
  | cons b rest ih =>
    rw [List.countP_cons]
    obtain ⟨hb, hrest⟩ := List.pairwise_cons.mp h
    by_cases hbp : b.position = p
    · have hzero : rest.countP (fun b => b.position = p) = 0 := by
        rw [List.countP_eq_zero]
        intro b' hb'
        simp only [decide_eq_true_eq]
        intro he
        exact hb b' hb' (hbp.trans he.symm)
      simp [hzero, hbp]
    · have := ih hrest
      simp [hbp]
      omega

/-- Characterisation of the registry after one placement attempt: either it
is untouched, or a block was appended at a previously free cell. -/
theorem addBlock_blocks_cases (pick : List Block → Option PlacementHit)
    (freshId : ℕ) (s : AppState) :
    (addBlockAtPosition pick freshId s).blocks = s.blocks
    ∨ ∃ pos t, (¬ ∃ b ∈ s.blocks, b.position = pos)
        ∧ (addBlockAtPosition pick freshId s).blocks
          = s.blocks ++ [⟨pos, t, freshId⟩] := by
  unfold addBlockAtPosition
  cases hg : s.inventory.get? s.selectedBlockIndex with
  | none => left; rfl
  | some slot =>
    by_cases hc : slot.count ≤ 0
    · left; simp [hc]
    · cases hp : pick s.blocks with
      | none => left; simp [hc]
      | some hit =>
        cases hf : s.blocks.find? (fun b => b.id = hit.blockId) with
        | none => left; simp [hc, hf]
        | some clicked =>
          by_cases hany : ∃ x ∈ s.blocks,
            x.position = targetCell clicked.position hit.normal
          · left; simp [hc, hf, hany]
          · right
            exact ⟨targetCell clicked.position hit.normal, slot.type, hany,
              by simp [hc, hf, hany]⟩

/-- Placement preserves position-uniqueness: it only inserts at a cell it
just checked to be free. -/
theorem addBlock_posUnique (pick : List Block → Option PlacementHit)
    (freshId : ℕ) (s : AppState) (h : PosUnique s.blocks) :
    PosUnique (addBlockAtPosition pick freshId s).blocks := by
  rcases addBlock_blocks_cases pick freshId s with hsame | ⟨pos, t, hnone, happ⟩
  · rwa [hsame]
  · rw [happ]
    rw [PosUnique, List.pairwise_append]
    refine ⟨h, by simp, ?_⟩
    intro a ha b hb
    rw [List.mem_singleton] at hb
    subst hb
    intro he
    exact hnone ⟨a, ha, he⟩

/-- Destruction only filters the registry. -/
theorem destroy_blocks_sublist (pick : List Block → Option ℕ) (s : AppState) :
    (destroyBlockAtPosition pick s).blocks.Sublist s.blocks := by
  simp only [destroyBlockAtPosition]
  cases hp : pick s.blocks with
  | none => exact List.Sublist.refl _
  | some mid =>
    cases hf : s.blocks.find? (fun b => b.id = mid) with
    | none =>
      simp only [hf]
      exact List.Sublist.refl _
    | some clicked =>
      simp only [hf]
      exact List.filter_sublist _

/-- In every column whose surface height and dirt depth lie in the reachable
range, the dirt/stone fill reaches the bedrock level, producing a
non-bedrock block at y = -7. -/
theorem fill_block_at_bedrock (env : NoiseEnv) (x z : ℕ)
    (hh : -6 ≤ columnHeight env x z) (hd : 1 ≤ columnDirtDepth env x z) :
    ∃ t, t ≠ BlockType.bedrock
      ∧ ((⟨(x : ℤ), bedrockLevel, (z : ℤ)⟩ : Pos3), t)
        ∈ columnDirt env x z ++ columnStone env x z := by
  by_cases hcase : columnHeight env x z + 7 ≤ columnDirtDepth env x z
  · refine ⟨BlockType.dirt, by simp, List.mem_append.mpr (Or.inl ?_)⟩
    have hidx : (columnHeight env x z + 6).toNat
        < (columnDirtDepth env x z).toNat := by omega
    have hcast : (((columnHeight env x z + 6).toNat : ℕ) : ℤ)
        = columnHeight env x z + 6 := Int.toNat_of_nonneg (by omega)
    have hmem : ((⟨(x : ℤ),
        columnHeight env x z
          - ((((columnHeight env x z + 6).toNat : ℕ) : ℤ) + 1),
        (z : ℤ)⟩ : Pos3), BlockType.dirt)
        ∈ List.map
          (fun i : ℕ =>
            ((⟨(x : ℤ), columnHeight env x z - ((i : ℤ) + 1), (z : ℤ)⟩ : Pos3),
              BlockType.dirt))
          (List.range (columnDirtDepth env x z).toNat) :=
      List.mem_map_of_mem _ (List.mem_range.mpr hidx)
    rw [hcast] at hmem
    have harith : columnHeight env x z - (columnHeight env x z + 6 + 1)
        = bedrockLevel := by
      show columnHeight env x z - (columnHeight env x z + 6 + 1) = -7
      omega
    rw [harith] at hmem
    unfold columnDirt
    exact hmem
  · have hge : (0 : ℤ) ≤ columnHeight env x z + 6 - columnDirtDepth env x z := by
      omega
    have hcast : (((columnHeight env x z + 6 - columnDirtDepth env x z).toNat : ℕ) : ℤ)
        = columnHeight env x z + 6 - columnDirtDepth env x z :=
      Int.toNat_of_nonneg hge
    refine ⟨if env.ore x (columnHeight env x z + 7) z then BlockType.dirt
        else BlockType.stone,
      by split <;> simp, List.mem_append.mpr (Or.inr ?_)⟩
    have hidx : (columnHeight env x z + 6 - columnDirtDepth env x z).toNat
        < ((((-7 - columnHeight env x z).natAbs : ℕ) : ℤ)
            - columnDirtDepth env x z).toNat := by omega
    have hmem : ((⟨(x : ℤ),
        columnHeight env x z - (columnDirtDepth env x z + 1
          + (((columnHeight env x z + 6 - columnDirtDepth env x z).toNat : ℕ) : ℤ)),
        (z : ℤ)⟩ : Pos3),
        if env.ore x (columnDirtDepth env x z + 1
            + (((columnHeight env x z + 6 - columnDirtDepth env x z).toNat : ℕ) : ℤ)) z
        then BlockType.dirt else BlockType.stone)
        ∈ List.map
          (fun i : ℕ =>
            ((⟨(x : ℤ), columnHeight env x z
                - (columnDirtDepth env x z + 1 + (i : ℤ)), (z : ℤ)⟩ : Pos3),
              if env.ore x (columnDirtDepth env x z + 1 + (i : ℤ)) z then
                BlockType.dirt
              else BlockType.stone))
          (List.range ((((-7 - columnHeight env x z).natAbs : ℕ) : ℤ)
            - columnDirtDepth env x z).toNat) :=
      List.mem_map_of_mem _ (List.mem_range.mpr hidx)
    have heqy : columnDirtDepth env x z + 1
        + (((columnHeight env x z + 6 - columnDirtDepth env x z).toNat : ℕ) : ℤ)
        = columnHeight env x z + 7 := by
      rw [hcast]
      ring
    rw [heqy] at hmem
    have harith : columnHeight env x z - (columnHeight env x z + 7)
        = bedrockLevel := by
      show columnHeight env x z - (columnHeight env x z + 7) = -7
      omega
    rw [harith] at hmem
    unfold columnStone
    exact hmem

/-- A fragment emitted for one element is a sublist of the flat map. -/
theorem sublist_flatMap_of_mem {α β : Type} (f : α → List β) :
    ∀ (l : List α) (a : α), a ∈ l → (f a).Sublist (l.flatMap f) := by
  intro l
  induction l with
  | nil => intro a ha; simp at ha
  | cons b rest ih =>
    intro a ha
    rw [List.flatMap_cons]
    rcases List.mem_cons.mp ha with rfl | ha'
    · exact List.sublist_append_left _ _
    · exact (ih a ha').trans (List.sublist_append_right _ _)

/-- The blocks of an in-range column form a sublist of the terrain. -/
theorem columnBlocksRaw_sublist_terrain (env : NoiseEnv) (x z : ℕ)
    (hx : x < WORLD_SIZE) (hz : z < WORLD_SIZE) :
    (columnBlocksRaw env x z).Sublist (terrainRaw env) := by
  unfold terrainRaw
  refine List.Sublist.trans ?_
    (sublist_flatMap_of_mem _ (List.range WORLD_SIZE) x (List.mem_range.mpr hx))
  exact sublist_flatMap_of_mem _ (List.range WORLD_SIZE) z (List.mem_range.mpr hz)

/-- The raw terrain of a reachable column is not position-unique: the fill
block at the bedrock level collides with the bedrock block. -/
theorem terrainRaw_not_pairwise (env : NoiseEnv) (x z : ℕ)
    (hx : x < WORLD_SIZE) (hz : z < WORLD_SIZE)
    (hh : -6 ≤ columnHeight env x z) (hd : 1 ≤ columnDirtDepth env x z) :
    ¬ (terrainRaw env).Pairwise (fun a b => a.1 ≠ b.1) := by
  intro hpw
  obtain ⟨t, hnb, hmem⟩ := fill_block_at_bedrock env x z hh hd
  have hbed : ((⟨(x : ℤ), bedrockLevel, (z : ℤ)⟩ : Pos3), BlockType.bedrock)
      ∈ columnBedrock x z ++ columnTree env x z :=
    List.mem_append.mpr (Or.inl (List.mem_singleton.mpr rfl))
  have hsub1 : [((⟨(x : ℤ), bedrockLevel, (z : ℤ)⟩ : Pos3), t),
      ((⟨(x : ℤ), bedrockLevel, (z : ℤ)⟩ : Pos3), BlockType.bedrock)].Sublist
      ((columnDirt env x z ++ columnStone env x z)
        ++ (columnBedrock x z ++ columnTree env x z)) :=
    List.Sublist.append (List.singleton_sublist.mpr hmem)
      (List.singleton_sublist.mpr hbed)
  have hcol : ((columnDirt env x z ++ columnStone env x z)
      ++ (columnBedrock x z ++ columnTree env x z)).Sublist
      (columnBlocksRaw env x z) := by
    unfold columnBlocksRaw
    simp only [List.append_assoc]
    exact List.sublist_append_right _ _
  have hsub : [((⟨(x : ℤ), bedrockLevel, (z : ℤ)⟩ : Pos3), t),
      ((⟨(x : ℤ), bedrockLevel, (z : ℤ)⟩ : Pos3), BlockType.bedrock)].Sublist
      (terrainRaw env) :=
    (hsub1.trans hcol).trans (columnBlocksRaw_sublist_terrain env x z hx hz)
  have hpair := hpw.sublist hsub
  have hR := (List.pairwise_cons.mp hpair).1 _ (List.mem_singleton.mpr rfl)
  exact hR rfl

/-! ## Claim about the uniqueness invariant -/

set_option maxRecDepth 10000 in
/-- Claim C1 as stated is false on the code: with every noise sample in the
reachable range (flat height -2, dirt depth 2), terrain generation itself
places two blocks at the cell (0, -7, 0) — the last stone-fill block and the
bedrock block. -/
theorem c1_counterexample :
    (generateTerrain cexEnv).countP (fun b => b.position = ⟨0, -7, 0⟩) = 2
    ∧ ¬ PosUnique (generateTerrain cexEnv) := by
  have h2 : (generateTerrain cexEnv).countP
      (fun b => b.position = ⟨0, -7, 0⟩) = 2 := by decide
  refine ⟨h2, fun hpu => ?_⟩
  have h1 := countP_pos_le_one_of_posUnique (generateTerrain cexEnv)
    ⟨0, -7, 0⟩ hpu
  omega

/-- Claim C1 amended: the interactive insert and remove operations preserve
position-uniqueness (placement rejects occupied cells, destruction only
filters), but terrain generation itself violates the invariant — in every
column whose height and dirt-depth samples lie in the reachable noise range,
the sub-surface fill loop reaches the bedrock level, so the fill block at
y = -7 and the bedrock block occupy the same cell. -/
theorem c1_amended_uniqueness (pickP : List Block → Option PlacementHit)
    (pickD : List Block → Option ℕ) (freshId : ℕ) (s : AppState)
    (env : NoiseEnv) (x z : ℕ) (hx : x < WORLD_SIZE) (hz : z < WORLD_SIZE)
    (hh : -6 ≤ columnHeight env x z) (hd : 1 ≤ columnDirtDepth env x z) :
    (PosUnique s.blocks → PosUnique (addBlockAtPosition pickP freshId s).blocks)
    ∧ (PosUnique s.blocks → PosUnique (destroyBlockAtPosition pickD s).blocks)
    ∧ ¬ PosUnique (generateTerrain env) := by
  refine ⟨addBlock_posUnique pickP freshId s, ?_, ?_⟩
  · intro h
    exact h.sublist (destroy_blocks_sublist pickD s)
  · intro hpu
    apply terrainRaw_not_pairwise env x z hx hz hh hd
    have hmap : ((generateTerrain env).map posType).Pairwise
        (fun a b => a.1 ≠ b.1) := by
      rw [List.pairwise_map]
      exact hpu
    rwa [generateTerrain_map_posType] at hmap

/-- Witness for the amended C1: the concrete placement and destruction steps
keep the two-block scene position-unique, while the generated terrain of the
flat oracle is not position-unique. -/
theorem c1_amended_witness :
    PosUnique (addBlockAtPosition pickTopA 1 sFree).blocks
    ∧ PosUnique (destroyBlockAtPosition pickFirst sFree).blocks
    ∧ ¬ PosUnique (generateTerrain cexEnv) := by
  have h := c1_amended_uniqueness pickTopA pickFirst 1 sFree cexEnv 0 0
    (by decide) (by decide) (by decide) (by decide)
  exact ⟨h.1 (by decide), h.2.1 (by decide), h.2.2⟩

end VibeCart
